import Mathlib

/-!
Verification development for the streaming turn orchestrator of the
AIEmbeddedSystemHelperPlugin backend (`src/backend/main.py`).

The embedding follows the source closely:

* `_stream_agent` (main.py lines 203-331): the event translator that maps the
  raw ADK engine events of one turn into wire events, with the `__FORM__:`
  special case, payload truncation, the cooperative stop flag, the
  partial-output capture, and the final `Text{done:true}` record.
* `_producer` (lines 536-550): wraps the translator, turning an escaping
  exception into a single `error` wire event.
* `_monitored_stream` (lines 554-585): the disconnect watcher loop.
* `chat_stream` (lines 476-595): the supersession prologue and the
  user-message log write.
* `seal_session` (lines 598-681): the seal protocol.

Scheduling is the single-threaded cooperative asyncio loop: other tasks can
run only at `await` points of the translator loop.  The moments at which the
shared stop event is set, a `task.cancel()` lands inside the loop, or the
engine raises are therefore modelled by per-turn schedule parameters
(`stopTime`, `cancelAt`, `engineFault`), measured in loop iterations (one
iteration = one raw engine event pulled from `_runner.run_async`).
External library behaviour (`json.loads` of a form payload, and whether a
`_log_entry` file write raises) is passed in as a parameter.
-/

namespace Backend

/-- Parsed form descriptor: the dict produced by `json.loads` on the payload
after the `__FORM__:` marker.  The orchestrator reads only the `"form_id"`
key (`form_def.get("form_id", "?")`, main.py line 279); `formId = none`
models a dict without that key. -/
structure FormDef where
  formId : Option String
  deriving DecidableEq

/-- An ADK `function_call` part (agent asks for a tool). -/
structure FunctionCall where
  name : String
  args : List (String × String)
  deriving DecidableEq

/-- An ADK `function_response` part.  `result` is `raw.get("result", "")`
(main.py lines 264-267) for the string-valued case that every tool of this
repository produces. -/
structure FunctionResponse where
  name : String
  result : String
  deriving DecidableEq

/-- One part of an ADK event's content. -/
structure Part where
  functionCall : Option FunctionCall
  functionResponse : Option FunctionResponse
  text : Option String
  deriving DecidableEq

/-- One raw event as produced by `_runner.run_async`. -/
structure AdkEvent where
  author : String
  parts : List Part
  deriving DecidableEq

/-- Wire events: the JSON payloads of the SSE `data:` lines built in
`_stream_agent` (lines 252-301, 330) and `_producer` (line 546). -/
inductive WireEvent
  | text (chunk : String) (done : Bool)
  | toolStart (name agent : String) (args : List (String × String))
  | form (fd : FormDef)
  | toolResult (name agent result : String)
  | error (text : String)
  deriving DecidableEq

/-- Records appended to the durable per-session JSONL log by `_log_entry`
(main.py lines 45-53), identified by their role and content. -/
inductive LogEntry
  | user (content : String)
  | toolCall (agent tool : String) (args : List (String × String))
  | toolResult (tool : String) (result : String)
  | assistant (content : String)
  deriving DecidableEq

/-- Python string slice `s[:n]` (on code points). -/
def pyTake (s : String) (n : Nat) : String := String.mk (s.data.take n)

/-- Python string slice `s[n:]` (on code points). -/
def pyDrop (s : String) (n : Nat) : String := String.mk (s.data.drop n)

/-- Python `len(s)` (code points). -/
def pyLen (s : String) : Nat := s.data.length

/-- Python `s.startswith(p)`. -/
def pyStartsWith (s p : String) : Bool := s.data.take p.data.length == p.data

/-- Escaping applied by `json.dumps(..., ensure_ascii=False)` to one
character of a string value, for the character classes that occur in this
development. -/
def jsonEscapeChar (c : Char) : List Char :=
  if c = '"' ∨ c = '\\' then ['\\', c] else [c]

/-- Body of a JSON string literal for `s`. -/
def jsonEscape (s : String) : String := String.mk (s.data.flatMap jsonEscapeChar)

/-- Serialization `json.dumps(raw, default=str, ensure_ascii=False)` of the
response dict `raw = \x7b"result": s\x7d` (main.py line 282). -/
def dumpsResultDict (s : String) : String :=
  "\x7b\"result\": \"" ++ jsonEscape s ++ "\"\x7d"

/-- The reserved marker prefix of form tool results (main.py line 270,
`interaction_tools.py` line 91). -/
def formMarker : String := "__FORM__:"

/-- The truncation marker `"…"` appended at the display cap
(main.py line 288). -/
def ellipsis : String := "…"

/-- The interruption marker appended to captured partial output
(main.py line 319). -/
def stopMarker : String := "\n... [输出已被用户中断]"

/-- The fixed placeholder used by `seal_session` when no partial output was
captured (main.py line 658). -/
def sealPlaceholder : String := "（用户叫停了当前任务）"

/-- The opaque confirmation string handed back to the engine in place of the
raw form JSON (main.py line 279). -/
def rewrittenResult (fid : String) : String :=
  "[表单已发送给用户，form_id=" ++ fid ++ "]"

/-- Function-local state of one `_stream_agent` call: the local variable
`form_def` (`none` while still unassigned — Python raises `NameError` when
it is read in that state) and the `assistant_text_parts` accumulator. -/
structure TState where
  formDef : Option FormDef
  texts : List String
  deriving DecidableEq

/-- The `function_call` branch (main.py lines 245-259): log the tool call,
then yield `tool_start`.  Returns emitted wire events, written log records,
and whether the `_log_entry` call raised (in which case nothing was yielded
for this branch). -/
def fcStep (logFail : LogEntry → Option String) (agent : String) :
    Option FunctionCall → List WireEvent × List LogEntry × Bool
  | none => ([], [], false)
  | some fc =>
    match logFail (LogEntry.toolCall agent fc.name fc.args) with
    | some _ => ([], [], true)
    | none =>
      ([WireEvent.toolStart fc.name agent fc.args],
       [LogEntry.toolCall agent fc.name fc.args], false)

/-- Lines 282-296 of main.py: serialize the response, log it truncated to
the audit cap (2000), truncate to the display cap (500) with the ellipsis
marker, and yield the `tool_result` wire event. -/
def finishResponse (logFail : LogEntry → Option String) (agent frName resultStr : String) :
    List WireEvent × List LogEntry × Bool :=
  match logFail (LogEntry.toolResult frName (pyTake resultStr 2000)) with
  | some _ => ([], [], true)
  | none =>
    ([WireEvent.toolResult frName agent
        (if 500 < pyLen resultStr then pyTake resultStr 500 ++ ellipsis else resultStr)],
     [LogEntry.toolResult frName (pyTake resultStr 2000)], false)

/-- The `function_response` branch (main.py lines 261-296) including the
`__FORM__:` special case (lines 269-280): on a marker result, `json.loads`
the remainder inside a `try` whose `except` is `pass`, yield the `form`
event on success, then — in both cases — rewrite the result using
`form_def.get("form_id", "?")`.  When the parse failed and `form_def` was
never assigned earlier in the call, that read raises `NameError`.  The
final component records whether an exception was raised. -/
def frStep (loads : String → Option FormDef) (logFail : LogEntry → Option String)
    (agent : String) (st : TState) :
    Option FunctionResponse → List WireEvent × List LogEntry × TState × Bool
  | none => ([], [], st, false)
  | some fr =>
    if pyStartsWith fr.result formMarker then
      match loads (pyDrop fr.result 9) with
      | some fd =>
        match finishResponse logFail agent fr.name
            (dumpsResultDict (rewrittenResult (fd.formId.getD "?"))) with
        | (evs, lgs, raised) =>
          (WireEvent.form fd :: evs, lgs, ⟨some fd, st.texts⟩, raised)
      | none =>
        match st.formDef with
        | none => ([], [], st, true)
        | some fd =>
          match finishResponse logFail agent fr.name
              (dumpsResultDict (rewrittenResult (fd.formId.getD "?"))) with
          | (evs, lgs, raised) => (evs, lgs, st, raised)
    else
      match finishResponse logFail agent fr.name (dumpsResultDict fr.result) with
      | (evs, lgs, raised) => (evs, lgs, st, raised)

/-- The text branch (main.py lines 298-302): a truthy `part.text` is
accumulated into `assistant_text_parts` and yielded as a non-final text
chunk. -/
def textStep (st : TState) : Option String → List WireEvent × TState
  | none => ([], st)
  | some t =>
    if t = "" then ([], st)
    else ([WireEvent.text t false], ⟨st.formDef, st.texts ++ [t]⟩)

/-- Body of `for part in event.content.parts` (main.py lines 244-302) for a
single part.  An exception from an earlier branch skips the later branches
of the same part but keeps what was already yielded. -/
def processPart (loads : String → Option FormDef) (logFail : LogEntry → Option String)
    (agent : String) (st : TState) (p : Part) :
    List WireEvent × List LogEntry × TState × Bool :=
  match fcStep logFail agent p.functionCall with
  | (evs₁, lgs₁, true) => (evs₁, lgs₁, st, true)
  | (evs₁, lgs₁, false) =>
    match frStep loads logFail agent st p.functionResponse with
    | (evs₂, lgs₂, st₂, true) => (evs₁ ++ evs₂, lgs₁ ++ lgs₂, st₂, true)
    | (evs₂, lgs₂, st₂, false) =>
      match textStep st₂ p.text with
      | (evs₃, st₃) => (evs₁ ++ evs₂ ++ evs₃, lgs₁ ++ lgs₂, st₃, false)

/-- All parts of one raw event; an exception aborts the remaining parts. -/
def processParts (loads : String → Option FormDef) (logFail : LogEntry → Option String)
    (agent : String) (st : TState) :
    List Part → List WireEvent × List LogEntry × TState × Bool
  | [] => ([], [], st, false)
  | p :: ps =>
    match processPart loads logFail agent st p with
    | (evs, lgs, st', true) => (evs, lgs, st', true)
    | (evs, lgs, st', false) =>
      match processParts loads logFail agent st' ps with
      | (evs₂, lgs₂, st'', r) => (evs ++ evs₂, lgs ++ lgs₂, st'', r)

/-- Whether the shared stop event is set by loop iteration `i`:
`stopTime = some n` means another task sets it during the engine `await`
that pulls the `n`-th raw event, so the check at the top of iteration `i`
(main.py line 237) observes it exactly when `n ≤ i`. -/
def flagAt (stopTime : Option Nat) (i : Nat) : Bool :=
  match stopTime with
  | none => false
  | some n => decide (n ≤ i)

/-- How the `async for event in _runner.run_async(...)` loop ended. -/
inductive LoopExit
  | finished
  | stopBroke
  | cancelled
  | raised
  deriving DecidableEq

/-- The translator loop of `_stream_agent` (main.py lines 227-302).
`cancelAt = some i` models a `task.cancel()` landing at the engine `await`
of iteration `i` (the `CancelledError` is caught at line 303).  Returns the
wire events yielded, the log records written, the final local state, the
number of loop-top stop checks performed, and how the loop exited. -/
def runLoop (loads : String → Option FormDef) (logFail : LogEntry → Option String)
    (stopTime cancelAt : Option Nat) :
    Nat → TState → List AdkEvent →
      List WireEvent × List LogEntry × TState × Nat × LoopExit
  | i, st, [] => ([], [], st, i, LoopExit.finished)
  | i, st, e :: es =>
    if cancelAt = some i then ([], [], st, i, LoopExit.cancelled)
    else if flagAt stopTime i then ([], [], st, i, LoopExit.stopBroke)
    else
      match processParts loads logFail e.author st e.parts with
      | (evs, lgs, st', true) => (evs, lgs, st', i + 1, LoopExit.raised)
      | (evs, lgs, st', false) =>
        match runLoop loads logFail stopTime cancelAt (i + 1) st' es with
        | (evs₂, lgs₂, st'', t, ex) => (evs ++ evs₂, lgs ++ lgs₂, st'', t, ex)

/-- Cause recorded for how the whole `_stream_agent` body ended; the
post-loop code does not branch on it (the `except` handlers at lines
303-309 only log). -/
inductive EndCause
  | completed
  | engineFault
  | stopBreak
  | cancelled
  | raisedInLoop
  deriving DecidableEq

/-- Observable outcome of one `_producer`/`_stream_agent` run. `captured` is
the value written into `_partial_texts` (main.py line 320); `postRaise` is
an exception escaping `_stream_agent` after the loop (a `_log_entry`
failure at lines 321/326), which `_producer` turns into an `error` wire
event. -/
structure RunOut where
  wire : List WireEvent
  logs : List LogEntry
  captured : Option String
  wasStopped : Bool
  cause : EndCause
  postRaise : Option String
  deriving DecidableEq

/-- The stream-end record `{"type": "text", "chunk": "", "done": true}`
(main.py line 330). -/
def doneEvent : WireEvent := WireEvent.text "" true

/-- Lines 314-331 of `_stream_agent`, run after the loop however it ended
(there is no `await` between the loop's last suspension point and the final
yield, so the stop flag cannot change during this block).  On interruption
with captured text, `_partial_texts` is written before the `_log_entry`
call, so the capture survives a log failure. -/
def postLoop (logFail : LogEntry → Option String) (wasStopped : Bool) (fullText : String)
    (wire : List WireEvent) (logs : List LogEntry) (cause : EndCause) : RunOut :=
  if wasStopped then
    if fullText = "" then ⟨wire, logs, none, wasStopped, cause, none⟩
    else
      match logFail (LogEntry.assistant (fullText ++ stopMarker)) with
      | some m => ⟨wire, logs, some (fullText ++ stopMarker), wasStopped, cause, some m⟩
      | none =>
        ⟨wire, logs ++ [LogEntry.assistant (fullText ++ stopMarker)],
         some (fullText ++ stopMarker), wasStopped, cause, none⟩
  else
    if fullText = "" then ⟨wire ++ [doneEvent], logs, none, wasStopped, cause, none⟩
    else
      match logFail (LogEntry.assistant fullText) with
      | some m => ⟨wire, logs, none, wasStopped, cause, some m⟩
      | none =>
        ⟨wire ++ [doneEvent], logs ++ [LogEntry.assistant fullText], none, wasStopped, cause, none⟩

/-- One full `_stream_agent` call (main.py lines 203-331): run the translator
loop, then the post-loop block.  `engineFault = true` means
`_runner.run_async` raised after producing `events`; the `except Exception`
at line 308 only logs it. -/
def streamAgentRun (loads : String → Option FormDef) (logFail : LogEntry → Option String)
    (events : List AdkEvent) (engineFault : Bool) (stopTime cancelAt : Option Nat) : RunOut :=
  match runLoop loads logFail stopTime cancelAt 0 ⟨none, []⟩ events with
  | (wire, logs, st, tEnd, ex) =>
    postLoop logFail (flagAt stopTime tEnd) (String.join st.texts) wire logs
      (match ex with
       | LoopExit.finished => if engineFault then EndCause.engineFault else EndCause.completed
       | LoopExit.stopBroke => EndCause.stopBreak
       | LoopExit.cancelled => EndCause.cancelled
       | LoopExit.raised => EndCause.raisedInLoop)

/-- What `_producer` (main.py lines 536-550) puts on the delivery queue: the
translator's chunks, plus a single `error` wire event iff an exception
escaped `_stream_agent`. -/
def producerOut (r : RunOut) : List WireEvent :=
  match r.postRaise with
  | some m => r.wire ++ [WireEvent.error m]
  | none => r.wire

/-- The client- and registry-observable outcome of a run: delivered wire
events, durable log records, and the captured partial text. -/
def observables (r : RunOut) : List WireEvent × List LogEntry × Option String :=
  (producerOut r, r.logs, r.captured)

/-- Chunks of the streamed (non-final) text events, in order. -/
def chunkList (ws : List WireEvent) : List String :=
  ws.filterMap fun w =>
    match w with
    | WireEvent.text c false => some c
    | _ => none

/-- Concatenation of the streamed text chunks of a turn. -/
def chunksOf (ws : List WireEvent) : String := String.join (chunkList ws)

/-- A log sink whose writes all succeed. -/
def logOk : LogEntry → Option String := fun _ => none

/-- A `json.loads` stand-in that accepts no payload. -/
def noLoads : String → Option FormDef := fun _ => none

/-- A raw engine event carrying only a text part. -/
def mkTextEvent (s : String) : AdkEvent := ⟨"", [⟨none, none, some s⟩]⟩

/-- A raw engine event carrying only a tool function response. -/
def mkRespEvent (agent name res : String) : AdkEvent :=
  ⟨agent, [⟨none, some ⟨name, res⟩, none⟩]⟩

/-- The `chat_stream` handler from the user-message log write onward
(main.py lines 520-595).  The `_log_entry(sid, "user", message)` call at
line 521 is not wrapped in any `try`, so a failure there propagates out of
the handler to the HTTP layer (`Except.error`) and no turn is started. -/
def chatStreamHandle (loads : String → Option FormDef) (logFail : LogEntry → Option String)
    (message : String) (events : List AdkEvent) (engineFault : Bool)
    (stopTime cancelAt : Option Nat) : Except String RunOut :=
  match logFail (LogEntry.user message) with
  | some m => Except.error m
  | none => Except.ok (streamAgentRun loads logFail events engineFault stopTime cancelAt)

/-- The synthetic model-authored event appended by `seal_session`
(main.py lines 664-672). -/
structure SealEvent where
  author : String
  role : String
  text : String
  turnComplete : Bool
  deriving DecidableEq

/-- Builder matching main.py lines 664-672. -/
def mkSealEvent (txt : String) : SealEvent :=
  ⟨"embedded_system_helper", "model", txt, true⟩

/-- Python `partial if partial else "（用户叫停了当前任务）"`
(main.py line 658): an absent or empty capture falls back to the
placeholder. -/
def pySealText (cap : Option String) : String :=
  match cap with
  | some s => if s = "" then sealPlaceholder else s
  | none => sealPlaceholder

/-- Result dict of `seal_session`. -/
structure SealResult where
  preserved : Bool
  reason : Option String
  deriving DecidableEq

/-- Externally visible steps taken by `seal_session`, in program order. -/
inductive SealAction
  | getSession
  | setStopEvent
  | cancelTask
  | awaitTask
  | popTask
  | popStopEvent
  | popCaptured
  | appendSynthetic
  | ret
  deriving DecidableEq

/-- The per-session slice of the module-level registries
(`_session_service` membership, `_active_stream_tasks` with the task's
`done()` status, `_stop_events` with its `is_set()` status,
`_partial_texts`) plus the synthetic events appended to this session's
engine history. -/
structure SessionMaps where
  sessionExists : Bool
  activeTaskDone : Option Bool
  stopEventSet : Option Bool
  capturedText : Option String
  appendedEvents : List SealEvent
  deriving DecidableEq

/-- The `seal_session` endpoint (main.py lines 598-681), in the source's
order: look up the session (line 622; absent returns
`preserved=false, reason="session_not_found"`), set the stop event
(637-639), cancel the active task and wait up to 2 s (641-651), pop the
task and stop-event entries (651, 654), pop the captured text (657), then
try to append the synthetic `turn_complete` event (663-673); `appendOk`
says whether `append_event` succeeds.  `preserved` is true iff the append
succeeded; the session is never deleted here.  Also returns the action
trace. -/
def sealSession (appendOk : Bool) (m : SessionMaps) :
    SealResult × SessionMaps × List SealAction :=
  if m.sessionExists = false then
    (⟨false, some "session_not_found"⟩, m, [SealAction.getSession, SealAction.ret])
  else
    let stopActs := match m.stopEventSet with
      | some _ => [SealAction.setStopEvent]
      | none => []
    let m₁ : SessionMaps :=
      ⟨m.sessionExists, m.activeTaskDone, m.stopEventSet.map (fun _ => true),
       m.capturedText, m.appendedEvents⟩
    let taskActs := match m₁.activeTaskDone with
      | some d =>
        (if d = false then [SealAction.cancelTask, SealAction.awaitTask] else [])
          ++ [SealAction.popTask]
      | none => []
    let m₄ : SessionMaps := ⟨m₁.sessionExists, none, none, none, m₁.appendedEvents⟩
    let txt := pySealText m₁.capturedText
    let acts := [SealAction.getSession] ++ stopActs ++ taskActs
      ++ [SealAction.popStopEvent, SealAction.popCaptured, SealAction.appendSynthetic,
          SealAction.ret]
    if appendOk then
      (⟨true, none⟩,
       ⟨m₄.sessionExists, m₄.activeTaskDone, m₄.stopEventSet, m₄.capturedText,
        m₄.appendedEvents ++ [mkSealEvent txt]⟩,
       acts)
    else
      (⟨false, none⟩, m₄, acts)

/-- A producer task as seen by the supersession logic: whether `done()` is
true and whether it is currently inside `_runner.run_async` for this
session (still driving the engine). -/
structure StreamTask where
  done : Bool
  driving : Bool
  deriving DecidableEq

/-- Per-session slice of `_active_stream_tasks` / `_stop_events` as used by
the `chat_stream` prologue. -/
structure StreamMaps where
  activeTask : Option StreamTask
  stopEventPresent : Bool
  deriving DecidableEq

/-- The supersession prologue of `chat_stream` plus the new producer task
creation (main.py lines 487-503 and 523-525, 552-553): set the old stop
event, cancel the old task, wait up to 1 s for it
(`asyncio.wait_for(asyncio.shield(old_task), timeout=1.0)`), and on
`TimeoutError` proceed anyway (`except ...: pass`), popping the old entries
and starting a fresh stop event and producer task.  `oldStopsInWait` says
whether the superseded task actually left `_runner.run_async` within the
wait; the second component is the number of tasks concurrently inside
`_runner.run_async` for this session at the instant the new producer task
starts driving. -/
def chatStreamStart (oldStopsInWait : Bool) (m : StreamMaps) : StreamMaps × Nat :=
  let oldStillDriving :=
    match m.activeTask with
    | some t => if t.done then false else if oldStopsInWait then false else t.driving
    | none => false
  (⟨some ⟨false, true⟩, true⟩, (if oldStillDriving then 1 else 0) + 1)

/-- One iteration's inputs for the `while True` loop of `_monitored_stream`
(main.py lines 555-573): the `request.is_disconnected()` poll, the task's
`done()` status, and what `asyncio.wait_for(queue.get(), timeout=0.5)`
produces — `none` is a timeout, `some none` the sentinel, `some (some c)` a
chunk. -/
structure PollRound where
  disconnected : Bool
  taskDone : Bool
  queueGet : Option (Option String)
  deriving DecidableEq

/-- Externally visible steps of the disconnect watcher. -/
inductive MonitorAction
  | setStop
  | cancelTask
  | ret
  deriving DecidableEq

/-- The consumer/watcher loop of `_monitored_stream` (main.py lines
555-573), driven by a script of poll rounds: on a detected disconnect it
sets the stop event, cancels the producer task if it is not done, and
returns (lines 557-564); otherwise it forwards chunks until the sentinel.
Returns the chunks yielded to the transport and the action trace (the
`finally` cleanup at lines 574-585 is outside this loop). -/
def monitoredStreamLoop : List PollRound → List String × List MonitorAction
  | [] => ([], [])
  | r :: rest =>
    if r.disconnected then
      ([], [MonitorAction.setStop]
        ++ (if r.taskDone then [] else [MonitorAction.cancelTask])
        ++ [MonitorAction.ret])
    else
      match r.queueGet with
      | none => monitoredStreamLoop rest
      | some none => ([], [MonitorAction.ret])
      | some (some c) =>
        match monitoredStreamLoop rest with
        | (cs, as) => (c :: cs, as)

/-- Shape of wire events that the translator loop itself can yield: text
chunks are always non-final and neither `error` nor `Text{done:true}` is
ever produced inside the loop. -/
def isLoopWire : WireEvent → Bool
  | WireEvent.text _ d => !d
  | WireEvent.error _ => false
  | _ => true

/-- A part whose tool result does not carry the `__FORM__:` marker. -/
def partNoFormB (p : Part) : Bool :=
  match p.functionResponse with
  | some fr => !(pyStartsWith fr.result formMarker)
  | none => true

/-- Events none of whose tool results carry the `__FORM__:` marker. -/
def eventsNoFormB (es : List AdkEvent) : Bool :=
  es.all fun e => e.parts.all partNoFormB

/-- A `json.loads` stand-in that parses exactly the payload `"G"` into a
form descriptor with `form_id = "fid"`. -/
def formLoadsG : String → Option FormDef :=
  fun r => if r = "G" then some ⟨some "fid"⟩ else none

/-- A log sink whose write of the user-message record raises (e.g. the log
directory became unwritable), while all other writes succeed. -/
def failUserLog : LogEntry → Option String :=
  fun e =>
    match e with
    | LogEntry.user _ => some "disk full"
    | _ => none

theorem fcStep_wire_shape (logFail : LogEntry → Option String) (agent : String)
    (fc? : Option FunctionCall) :
    ∀ w ∈ (fcStep logFail agent fc?).1, isLoopWire w = true := by
  cases fc? with
  | none => intro w hw; simp [fcStep] at hw
  | some fc =>
    intro w hw
    cases h : logFail (LogEntry.toolCall agent fc.name fc.args) <;>
      simp [fcStep, h] at hw
    · simp [hw, isLoopWire]

theorem fcStep_chunks (logFail : LogEntry → Option String) (agent : String)
    (fc? : Option FunctionCall) :
    chunkList (fcStep logFail agent fc?).1 = [] := by
  cases fc? with
  | none => simp [fcStep, chunkList]
  | some fc =>
    cases h : logFail (LogEntry.toolCall agent fc.name fc.args) <;>
      simp [fcStep, h, chunkList]

theorem finishResponse_wire_shape (logFail : LogEntry → Option String)
    (agent frName resultStr : String) :
    ∀ w ∈ (finishResponse logFail agent frName resultStr).1, isLoopWire w = true := by
  intro w hw
  cases h : logFail (LogEntry.toolResult frName (pyTake resultStr 2000)) <;>
    simp [finishResponse, h] at hw
  · simp [hw, isLoopWire]

theorem finishResponse_chunks (logFail : LogEntry → Option String)
    (agent frName resultStr : String) :
    chunkList (finishResponse logFail agent frName resultStr).1 = [] := by
  cases h : logFail (LogEntry.toolResult frName (pyTake resultStr 2000)) <;>
    simp [finishResponse, h, chunkList]

theorem frStep_wire_shape (loads : String → Option FormDef) (logFail : LogEntry → Option String)
    (agent : String) (st : TState) (fr? : Option FunctionResponse) :
    ∀ w ∈ (frStep loads logFail agent st fr?).1, isLoopWire w = true := by
  cases fr? with
  | none => intro w hw; simp [frStep] at hw
  | some fr =>
    intro w hw
    by_cases hm : pyStartsWith fr.result formMarker
    · rw [frStep] at hw
      simp only [hm, if_true] at hw
      cases hld : loads (pyDrop fr.result 9) with
      | some fd =>
        rcases hfin : finishResponse logFail agent fr.name
            (dumpsResultDict (rewrittenResult (fd.formId.getD "?"))) with ⟨evs, lgs, raised⟩
        simp only [hld, hfin] at hw
        rcases List.mem_cons.mp hw with h | h
        · simp [h, isLoopWire]
        · have := finishResponse_wire_shape logFail agent fr.name
            (dumpsResultDict (rewrittenResult (fd.formId.getD "?"))) w
          rw [hfin] at this; exact this h
      | none =>
        cases hfd : st.formDef with
        | none => simp [hld, hfd] at hw
        | some fd =>
          rcases hfin : finishResponse logFail agent fr.name
              (dumpsResultDict (rewrittenResult (fd.formId.getD "?"))) with ⟨evs, lgs, raised⟩
          simp only [hld, hfd, hfin] at hw
          have := finishResponse_wire_shape logFail agent fr.name
            (dumpsResultDict (rewrittenResult (fd.formId.getD "?"))) w
          rw [hfin] at this; exact this hw
    · rw [frStep] at hw
      simp only [hm, if_false] at hw
      rcases hfin : finishResponse logFail agent fr.name (dumpsResultDict fr.result) with
        ⟨evs, lgs, raised⟩
      simp only [hfin] at hw
      have := finishResponse_wire_shape logFail agent fr.name (dumpsResultDict fr.result) w
      rw [hfin] at this; exact this hw

theorem frStep_chunks (loads : String → Option FormDef) (logFail : LogEntry → Option String)
    (agent : String) (st : TState) (fr? : Option FunctionResponse) :
    chunkList (frStep loads logFail agent st fr?).1 = [] := by
  cases fr? with
  | none => simp [frStep, chunkList]
  | some fr =>
    by_cases hm : pyStartsWith fr.result formMarker
    · rw [frStep]
      simp only [hm, if_true]
      cases hld : loads (pyDrop fr.result 9) with
      | some fd =>
        rcases hfin : finishResponse logFail agent fr.name
            (dumpsResultDict (rewrittenResult (fd.formId.getD "?"))) with ⟨evs, lgs, raised⟩
        have h2 := finishResponse_chunks logFail agent fr.name
          (dumpsResultDict (rewrittenResult (fd.formId.getD "?")))
        rw [hfin] at h2
        simp only [hfin]
        simp [chunkList] at h2 ⊢
        exact h2
      | none =>
        cases hfd : st.formDef with
        | none => simp [chunkList]
        | some fd =>
          rcases hfin : finishResponse logFail agent fr.name
              (dumpsResultDict (rewrittenResult (fd.formId.getD "?"))) with ⟨evs, lgs, raised⟩
          have h2 := finishResponse_chunks logFail agent fr.name
            (dumpsResultDict (rewrittenResult (fd.formId.getD "?")))
          rw [hfin] at h2
          simp only [hfin]
          simpa using h2
    · rw [frStep]
      simp only [hm, if_false]
      rcases hfin : finishResponse logFail agent fr.name (dumpsResultDict fr.result) with
        ⟨evs, lgs, raised⟩
      have h2 := finishResponse_chunks logFail agent fr.name (dumpsResultDict fr.result)
      rw [hfin] at h2
      simp only [hfin]
      simpa using h2

theorem frStep_texts (loads : String → Option FormDef) (logFail : LogEntry → Option String)
    (agent : String) (st : TState) (fr? : Option FunctionResponse) :
    (frStep loads logFail agent st fr?).2.2.1.texts = st.texts := by
  cases fr? with
  | none => simp [frStep]
  | some fr =>
    by_cases hm : pyStartsWith fr.result formMarker
    · rw [frStep]
      simp only [hm, if_true]
      cases hld : loads (pyDrop fr.result 9) with
      | some fd =>
        rcases hfin : finishResponse logFail agent fr.name
            (dumpsResultDict (rewrittenResult (fd.formId.getD "?"))) with ⟨evs, lgs, raised⟩
        simp
      | none =>
        cases hfd : st.formDef with
        | none => simp
        | some fd =>
          rcases hfin : finishResponse logFail agent fr.name
              (dumpsResultDict (rewrittenResult (fd.formId.getD "?"))) with ⟨evs, lgs, raised⟩
          simp
    · rw [frStep]
      simp only [hm, if_false]
      rcases hfin : finishResponse logFail agent fr.name (dumpsResultDict fr.result) with
        ⟨evs, lgs, raised⟩
      simp

theorem textStep_wire_shape (st : TState) (t? : Option String) :
    ∀ w ∈ (textStep st t?).1, isLoopWire w = true := by
  cases t? with
  | none => intro w hw; simp [textStep] at hw
  | some t =>
    intro w hw
    by_cases h : t = "" <;> simp [textStep, h] at hw
    · simp [hw, isLoopWire]

theorem textStep_texts (st : TState) (t? : Option String) :
    (textStep st t?).2.texts = st.texts ++ chunkList (textStep st t?).1 := by
  cases t? with
  | none => simp [textStep, chunkList]
  | some t =>
    by_cases h : t = "" <;> simp [textStep, h, chunkList]

theorem textStep_formDef (st : TState) (t? : Option String) :
    (textStep st t?).2.formDef = st.formDef := by
  cases t? with
  | none => simp [textStep]
  | some t =>
    by_cases h : t = "" <;> simp [textStep, h]

theorem processParts_nil (loads : String → Option FormDef)
    (logFail : LogEntry → Option String) (agent : String) (st : TState) :
    processParts loads logFail agent st [] = ([], [], st, false) := rfl

theorem processPart_eq_raisedFc (loads : String → Option FormDef)
    (logFail : LogEntry → Option String) (agent : String) (st : TState) (p : Part)
    (e1 : List WireEvent) (l1 : List LogEntry)
    (hfc : fcStep logFail agent p.functionCall = (e1, l1, true)) :
    processPart loads logFail agent st p = (e1, l1, st, true) := by
  simp [processPart, hfc]

theorem processPart_eq_raisedFr (loads : String → Option FormDef)
    (logFail : LogEntry → Option String) (agent : String) (st : TState) (p : Part)
    (e1 e2 : List WireEvent) (l1 l2 : List LogEntry) (st2 : TState)
    (hfc : fcStep logFail agent p.functionCall = (e1, l1, false))
    (hfr : frStep loads logFail agent st p.functionResponse = (e2, l2, st2, true)) :
    processPart loads logFail agent st p = (e1 ++ e2, l1 ++ l2, st2, true) := by
  simp [processPart, hfc, hfr]

theorem processPart_eq_ok (loads : String → Option FormDef)
    (logFail : LogEntry → Option String) (agent : String) (st : TState) (p : Part)
    (e1 e2 e3 : List WireEvent) (l1 l2 : List LogEntry) (st2 st3 : TState)
    (hfc : fcStep logFail agent p.functionCall = (e1, l1, false))
    (hfr : frStep loads logFail agent st p.functionResponse = (e2, l2, st2, false))
    (ht : textStep st2 p.text = (e3, st3)) :
    processPart loads logFail agent st p = (e1 ++ e2 ++ e3, l1 ++ l2, st3, false) := by
  simp [processPart, hfc, hfr, ht]

theorem processParts_cons_raised (loads : String → Option FormDef)
    (logFail : LogEntry → Option String) (agent : String) (st : TState) (p : Part)
    (ps : List Part) (evs : List WireEvent) (lgs : List LogEntry) (st' : TState)
    (hpp : processPart loads logFail agent st p = (evs, lgs, st', true)) :
    processParts loads logFail agent st (p :: ps) = (evs, lgs, st', true) := by
  simp [processParts, hpp]

theorem processParts_cons_ok (loads : String → Option FormDef)
    (logFail : LogEntry → Option String) (agent : String) (st : TState) (p : Part)
    (ps : List Part) (evs evs₂ : List WireEvent) (lgs lgs₂ : List LogEntry)
    (st' st'' : TState) (r : Bool)
    (hpp : processPart loads logFail agent st p = (evs, lgs, st', false))
    (hps : processParts loads logFail agent st' ps = (evs₂, lgs₂, st'', r)) :
    processParts loads logFail agent st (p :: ps) = (evs ++ evs₂, lgs ++ lgs₂, st'', r) := by
  simp [processParts, hpp, hps]

theorem runLoop_nil (loads : String → Option FormDef) (logFail : LogEntry → Option String)
    (stopTime cancelAt : Option Nat) (i : Nat) (st : TState) :
    runLoop loads logFail stopTime cancelAt i st [] = ([], [], st, i, LoopExit.finished) := rfl

theorem runLoop_cons_cancel (loads : String → Option FormDef)
    (logFail : LogEntry → Option String) (stopTime cancelAt : Option Nat) (i : Nat)
    (st : TState) (e : AdkEvent) (es : List AdkEvent) (hc : cancelAt = some i) :
    runLoop loads logFail stopTime cancelAt i st (e :: es)
      = ([], [], st, i, LoopExit.cancelled) := by
  simp [runLoop, hc]

theorem runLoop_cons_flag (loads : String → Option FormDef)
    (logFail : LogEntry → Option String) (stopTime cancelAt : Option Nat) (i : Nat)
    (st : TState) (e : AdkEvent) (es : List AdkEvent) (hc : cancelAt ≠ some i)
    (hf : flagAt stopTime i = true) :
    runLoop loads logFail stopTime cancelAt i st (e :: es)
      = ([], [], st, i, LoopExit.stopBroke) := by
  simp [runLoop, hc, hf]

theorem runLoop_cons_raised (loads : String → Option FormDef)
    (logFail : LogEntry → Option String) (stopTime cancelAt : Option Nat) (i : Nat)
    (st : TState) (e : AdkEvent) (es : List AdkEvent) (hc : cancelAt ≠ some i)
    (hf : flagAt stopTime i = false) (evs : List WireEvent) (lgs : List LogEntry)
    (st' : TState)
    (hpp : processParts loads logFail e.author st e.parts = (evs, lgs, st', true)) :
    runLoop loads logFail stopTime cancelAt i st (e :: es)
      = (evs, lgs, st', i + 1, LoopExit.raised) := by
  simp [runLoop, hc, hf, hpp]

theorem runLoop_cons_ok (loads : String → Option FormDef)
    (logFail : LogEntry → Option String) (stopTime cancelAt : Option Nat) (i : Nat)
    (st : TState) (e : AdkEvent) (es : List AdkEvent) (hc : cancelAt ≠ some i)
    (hf : flagAt stopTime i = false) (evs evs₂ : List WireEvent)
    (lgs lgs₂ : List LogEntry) (st' st'' : TState) (t : Nat) (ex : LoopExit)
    (hpp : processParts loads logFail e.author st e.parts = (evs, lgs, st', false))
    (hrec : runLoop loads logFail stopTime cancelAt (i + 1) st' es
      = (evs₂, lgs₂, st'', t, ex)) :
    runLoop loads logFail stopTime cancelAt i st (e :: es)
      = (evs ++ evs₂, lgs ++ lgs₂, st'', t, ex) := by
  simp [runLoop, hc, hf, hpp, hrec]

theorem processPart_wire_shape (loads : String → Option FormDef)
    (logFail : LogEntry → Option String) (agent : String) (st : TState) (p : Part) :
    ∀ w ∈ (processPart loads logFail agent st p).1, isLoopWire w = true := by
  intro w hw
  rcases hfc : fcStep logFail agent p.functionCall with ⟨e1, l1, r1⟩
  have hfc' := fcStep_wire_shape logFail agent p.functionCall
  rw [hfc] at hfc'
  cases r1 with
  | true =>
    rw [processPart_eq_raisedFc loads logFail agent st p e1 l1 hfc] at hw
    exact hfc' w hw
  | false =>
    rcases hfr : frStep loads logFail agent st p.functionResponse with ⟨e2, l2, st2, r2⟩
    have hfr' := frStep_wire_shape loads logFail agent st p.functionResponse
    rw [hfr] at hfr'
    cases r2 with
    | true =>
      rw [processPart_eq_raisedFr loads logFail agent st p e1 e2 l1 l2 st2 hfc hfr] at hw
      rcases List.mem_append.mp hw with h | h
      · exact hfc' w h
      · exact hfr' w h
    | false =>
      rcases ht : textStep st2 p.text with ⟨e3, st3⟩
      have ht' := textStep_wire_shape st2 p.text
      rw [ht] at ht'
      rw [processPart_eq_ok loads logFail agent st p e1 e2 e3 l1 l2 st2 st3 hfc hfr ht] at hw
      rcases List.mem_append.mp hw with h | h
      · rcases List.mem_append.mp h with h' | h'
        · exact hfc' w h'
        · exact hfr' w h'
      · exact ht' w h

theorem chunkList_append (a b : List WireEvent) :
    chunkList (a ++ b) = chunkList a ++ chunkList b := by
  simp [chunkList, List.filterMap_append]

theorem processPart_texts (loads : String → Option FormDef)
    (logFail : LogEntry → Option String) (agent : String) (st : TState) (p : Part) :
    (processPart loads logFail agent st p).2.2.1.texts
      = st.texts ++ chunkList (processPart loads logFail agent st p).1 := by
  rcases hfc : fcStep logFail agent p.functionCall with ⟨e1, l1, r1⟩
  have hfcc := fcStep_chunks logFail agent p.functionCall
  rw [hfc] at hfcc
  have hc1 : chunkList e1 = [] := hfcc
  cases r1 with
  | true =>
    rw [processPart_eq_raisedFc loads logFail agent st p e1 l1 hfc]
    show st.texts = st.texts ++ chunkList e1
    rw [hc1, List.append_nil]
  | false =>
    rcases hfr : frStep loads logFail agent st p.functionResponse with ⟨e2, l2, st2, r2⟩
    have hfrc := frStep_chunks loads logFail agent st p.functionResponse
    have hfrt := frStep_texts loads logFail agent st p.functionResponse
    rw [hfr] at hfrc hfrt
    have hc2 : chunkList e2 = [] := hfrc
    have ht2 : st2.texts = st.texts := hfrt
    cases r2 with
    | true =>
      rw [processPart_eq_raisedFr loads logFail agent st p e1 e2 l1 l2 st2 hfc hfr]
      show st2.texts = st.texts ++ chunkList (e1 ++ e2)
      rw [chunkList_append, hc1, hc2, ht2, List.append_nil, List.append_nil]
    | false =>
      rcases ht : textStep st2 p.text with ⟨e3, st3⟩
      have htt := textStep_texts st2 p.text
      rw [ht] at htt
      have ht3 : st3.texts = st2.texts ++ chunkList e3 := htt
      rw [processPart_eq_ok loads logFail agent st p e1 e2 e3 l1 l2 st2 st3 hfc hfr ht]
      show st3.texts = st.texts ++ chunkList (e1 ++ e2 ++ e3)
      rw [chunkList_append, chunkList_append, hc1, hc2, ht3, ht2]
      simp

theorem finishResponse_logOk (agent frName resultStr : String) :
    (finishResponse logOk agent frName resultStr).2.2 = false := rfl

theorem fcStep_logOk (agent : String) (fc? : Option FunctionCall) :
    (fcStep logOk agent fc?).2.2 = false := by
  cases fc? <;> rfl

theorem frStep_noForm (loads : String → Option FormDef) (agent : String) (st : TState)
    (fr? : Option FunctionResponse) (h : partNoFormB ⟨none, fr?, none⟩ = true) :
    (frStep loads logOk agent st fr?).2.2.2 = false
      ∧ (frStep loads logOk agent st fr?).2.2.1.formDef = st.formDef := by
  cases fr? with
  | none => exact ⟨rfl, rfl⟩
  | some fr =>
    simp only [partNoFormB, Bool.not_eq_true'] at h
    rw [frStep]
    simp only [h, if_false]
    rcases hfin : finishResponse logOk agent fr.name (dumpsResultDict fr.result) with
      ⟨evs, lgs, raised⟩
    have := finishResponse_logOk agent fr.name (dumpsResultDict fr.result)
    rw [hfin] at this
    simp at this
    simp [this]

theorem processPart_clean (loads : String → Option FormDef) (agent : String) (st : TState)
    (p : Part) (h : partNoFormB p = true) :
    (processPart loads logOk agent st p).2.2.2 = false
      ∧ (processPart loads logOk agent st p).2.2.1.formDef = st.formDef := by
  rcases hfc : fcStep logOk agent p.functionCall with ⟨e1, l1, r1⟩
  have h1 := fcStep_logOk agent p.functionCall
  rw [hfc] at h1
  simp at h1
  subst h1
  have hp : partNoFormB ⟨none, p.functionResponse, none⟩ = true := by
    simpa [partNoFormB] using h
  rcases hfr : frStep loads logOk agent st p.functionResponse with ⟨e2, l2, st2, r2⟩
  have h2 := frStep_noForm loads agent st p.functionResponse hp
  rw [hfr] at h2
  simp at h2
  rcases h2 with ⟨h2a, h2b⟩
  subst h2a
  rcases ht : textStep st2 p.text with ⟨e3, st3⟩
  have h3 := textStep_formDef st2 p.text
  rw [ht] at h3
  simp at h3
  rw [processPart_eq_ok loads logOk agent st p e1 e2 e3 l1 l2 st2 st3 hfc hfr ht]
  simp [h3, h2b]

theorem processParts_clean (loads : String → Option FormDef) (agent : String) :
    ∀ (ps : List Part) (st : TState), ps.all partNoFormB = true →
      (processParts loads logOk agent st ps).2.2.2 = false
        ∧ (processParts loads logOk agent st ps).2.2.1.formDef = st.formDef := by
  intro ps
  induction ps with
  | nil => intro st _; exact ⟨rfl, rfl⟩
  | cons p ps ih =>
    intro st h
    simp only [List.all_cons, Bool.and_eq_true] at h
    rcases hpp : processPart loads logOk agent st p with ⟨evs, lgs, st', r⟩
    have hc := processPart_clean loads agent st p h.1
    rw [hpp] at hc
    simp at hc
    rcases hc with ⟨hr, hfd⟩
    subst hr
    rcases hps : processParts loads logOk agent st' ps with ⟨evs₂, lgs₂, st'', r₂⟩
    have hc₂ := ih st' h.2
    rw [hps] at hc₂
    simp at hc₂
    rw [processParts_cons_ok loads logOk agent st p ps evs evs₂ lgs lgs₂ st' st'' r₂ hpp hps]
    simp [hc₂.1, hc₂.2.trans hfd]

theorem processParts_wire_shape (loads : String → Option FormDef)
    (logFail : LogEntry → Option String) (agent : String) :
    ∀ (ps : List Part) (st : TState),
      ∀ w ∈ (processParts loads logFail agent st ps).1, isLoopWire w = true := by
  intro ps
  induction ps with
  | nil => intro st w hw; simp [processParts] at hw
  | cons p ps ih =>
    intro st w hw
    rcases hpp : processPart loads logFail agent st p with ⟨evs, lgs, st', r⟩
    have h1 := processPart_wire_shape loads logFail agent st p
    rw [hpp] at h1
    cases r with
    | true =>
      rw [processParts_cons_raised loads logFail agent st p ps evs lgs st' hpp] at hw
      exact h1 w hw
    | false =>
      rcases hps : processParts loads logFail agent st' ps with ⟨evs₂, lgs₂, st'', r₂⟩
      have h2 := ih st'
      rw [hps] at h2
      rw [processParts_cons_ok loads logFail agent st p ps evs evs₂ lgs lgs₂ st' st'' r₂
        hpp hps] at hw
      rcases List.mem_append.mp hw with h | h
      · exact h1 w h
      · exact h2 w h

theorem processParts_texts (loads : String → Option FormDef)
    (logFail : LogEntry → Option String) (agent : String) :
    ∀ (ps : List Part) (st : TState),
      (processParts loads logFail agent st ps).2.2.1.texts
        = st.texts ++ chunkList (processParts loads logFail agent st ps).1 := by
  intro ps
  induction ps with
  | nil => intro st; simp [processParts, chunkList]
  | cons p ps ih =>
    intro st
    rcases hpp : processPart loads logFail agent st p with ⟨evs, lgs, st', r⟩
    have h1 := processPart_texts loads logFail agent st p
    rw [hpp] at h1
    have h1' : st'.texts = st.texts ++ chunkList evs := h1
    cases r with
    | true =>
      rw [processParts_cons_raised loads logFail agent st p ps evs lgs st' hpp]
      exact h1'
    | false =>
      rcases hps : processParts loads logFail agent st' ps with ⟨evs₂, lgs₂, st'', r₂⟩
      have h2 := ih st'
      rw [hps] at h2
      have h2' : st''.texts = st'.texts ++ chunkList evs₂ := h2
      rw [processParts_cons_ok loads logFail agent st p ps evs evs₂ lgs lgs₂ st' st'' r₂
        hpp hps]
      show st''.texts = st.texts ++ chunkList (evs ++ evs₂)
      rw [chunkList_append, h2', h1', List.append_assoc]

theorem runLoop_wire_shape (loads : String → Option FormDef)
    (logFail : LogEntry → Option String) (stopTime cancelAt : Option Nat) :
    ∀ (es : List AdkEvent) (i : Nat) (st : TState),
      ∀ w ∈ (runLoop loads logFail stopTime cancelAt i st es).1, isLoopWire w = true := by
  intro es
  induction es with
  | nil => intro i st w hw; simp [runLoop] at hw
  | cons e es ih =>
    intro i st w hw
    by_cases hc : cancelAt = some i
    · rw [runLoop_cons_cancel loads logFail stopTime cancelAt i st e es hc] at hw
      simp at hw
    · by_cases hf : flagAt stopTime i = true
      · rw [runLoop_cons_flag loads logFail stopTime cancelAt i st e es hc hf] at hw
        simp at hw
      · simp only [Bool.not_eq_true] at hf
        rcases hpp : processParts loads logFail e.author st e.parts with ⟨evs, lgs, st', r⟩
        have h1 := processParts_wire_shape loads logFail e.author e.parts st
        rw [hpp] at h1
        cases r with
        | true =>
          rw [runLoop_cons_raised loads logFail stopTime cancelAt i st e es hc hf evs lgs
            st' hpp] at hw
          exact h1 w hw
        | false =>
          rcases hrec : runLoop loads logFail stopTime cancelAt (i + 1) st' es with
            ⟨evs₂, lgs₂, st'', t, ex⟩
          have h2 := ih (i + 1) st'
          rw [hrec] at h2
          rw [runLoop_cons_ok loads logFail stopTime cancelAt i st e es hc hf evs evs₂ lgs
            lgs₂ st' st'' t ex hpp hrec] at hw
          rcases List.mem_append.mp hw with h | h
          · exact h1 w h
          · exact h2 w h

theorem runLoop_texts (loads : String → Option FormDef)
    (logFail : LogEntry → Option String) (stopTime cancelAt : Option Nat) :
    ∀ (es : List AdkEvent) (i : Nat) (st : TState),
      (runLoop loads logFail stopTime cancelAt i st es).2.2.1.texts
        = st.texts ++ chunkList (runLoop loads logFail stopTime cancelAt i st es).1 := by
  intro es
  induction es with
  | nil => intro i st; simp [runLoop, chunkList]
  | cons e es ih =>
    intro i st
    by_cases hc : cancelAt = some i
    · rw [runLoop_cons_cancel loads logFail stopTime cancelAt i st e es hc]
      simp [chunkList]
    · by_cases hf : flagAt stopTime i = true
      · rw [runLoop_cons_flag loads logFail stopTime cancelAt i st e es hc hf]
        simp [chunkList]
      · simp only [Bool.not_eq_true] at hf
        rcases hpp : processParts loads logFail e.author st e.parts with ⟨evs, lgs, st', r⟩
        have h1 := processParts_texts loads logFail e.author e.parts st
        rw [hpp] at h1
        have h1' : st'.texts = st.texts ++ chunkList evs := h1
        cases r with
        | true =>
          rw [runLoop_cons_raised loads logFail stopTime cancelAt i st e es hc hf evs lgs
            st' hpp]
          exact h1'
        | false =>
          rcases hrec : runLoop loads logFail stopTime cancelAt (i + 1) st' es with
            ⟨evs₂, lgs₂, st'', t, ex⟩
          have h2 := ih (i + 1) st'
          rw [hrec] at h2
          have h2' : st''.texts = st'.texts ++ chunkList evs₂ := h2
          rw [runLoop_cons_ok loads logFail stopTime cancelAt i st e es hc hf evs evs₂ lgs
            lgs₂ st' st'' t ex hpp hrec]
          show st''.texts = st.texts ++ chunkList (evs ++ evs₂)
          rw [chunkList_append, h2', h1', List.append_assoc]

theorem str_append_ne_empty (s t : String) (h : s ≠ "") : s ++ t ≠ "" := by
  intro heq
  apply h
  have hd : s.data ++ t.data = ([] : List Char) := by
    have h2 : (s ++ t).data = ("" : String).data := by rw [heq]
    cases s; cases t; simpa using h2
  have hs : s.data = [] := (List.append_eq_nil.mp hd).1
  cases s with
  | mk d =>
    have hd' : d = [] := hs
    subst hd'
    rfl

theorem loopWire_no_done_error {ws : List WireEvent}
    (h : ∀ w ∈ ws, isLoopWire w = true) :
    doneEvent ∉ ws ∧ ∀ m, WireEvent.error m ∉ ws := by
  constructor
  · intro hd
    have h2 := h _ hd
    simp [isLoopWire, doneEvent] at h2
  · intro m hm
    have h2 := h _ hm
    simp [isLoopWire] at h2

theorem postLoop_postRaise_logOk (ws : Bool) (ft : String) (w : List WireEvent)
    (l : List LogEntry) (c : EndCause) :
    (postLoop logOk ws ft w l c).postRaise = none := by
  cases ws <;> by_cases h : ft = "" <;> simp [postLoop, h, logOk]

theorem postLoop_cause_obs (lf : LogEntry → Option String) (ws : Bool) (ft : String)
    (w : List WireEvent) (l : List LogEntry) (c c' : EndCause) :
    observables (postLoop lf ws ft w l c) = observables (postLoop lf ws ft w l c') := by
  cases ws with
  | false =>
    by_cases h : ft = ""
    · simp [postLoop, h, observables, producerOut]
    · cases hlf : lf (LogEntry.assistant ft) <;>
        simp [postLoop, h, observables, producerOut, hlf]
  | true =>
    by_cases h : ft = ""
    · simp [postLoop, h, observables, producerOut]
    · cases hlf : lf (LogEntry.assistant (ft ++ stopMarker)) <;>
        simp [postLoop, h, observables, producerOut, hlf]

theorem postLoop_done (lf : LogEntry → Option String) (ws : Bool) (ft : String)
    (w : List WireEvent) (l : List LogEntry) (c : EndCause) (hw : doneEvent ∉ w) :
    (ws = true → doneEvent ∉ producerOut (postLoop lf ws ft w l c))
      ∧ (doneEvent ∈ producerOut (postLoop lf ws ft w l c)
          → (producerOut (postLoop lf ws ft w l c)).getLast? = some doneEvent) := by
  cases ws with
  | false =>
    by_cases h : ft = ""
    · refine ⟨fun hx => Bool.noConfusion hx, fun _ => ?_⟩
      simp only [postLoop, h, observables, producerOut, if_pos, if_neg, Bool.false_eq_true,
        if_false, if_true]
      exact List.getLast?_concat w
    · cases hlf : lf (LogEntry.assistant ft) with
      | none =>
        refine ⟨fun hx => Bool.noConfusion hx, fun _ => ?_⟩
        simp only [postLoop, h, producerOut, Bool.false_eq_true, if_false, hlf]
        exact List.getLast?_concat w
      | some m =>
        refine ⟨fun hx => Bool.noConfusion hx, fun hmem => ?_⟩
        exfalso
        simp only [postLoop, h, producerOut, Bool.false_eq_true, if_false, hlf] at hmem
        simp at hmem
        rcases hmem with hmem | hmem
        · exact hw hmem
        · simp [doneEvent] at hmem
  | true =>
    by_cases h : ft = ""
    · refine ⟨fun _ => ?_, fun hmem => ?_⟩ <;>
        simp only [postLoop, h, producerOut, if_true] at *
      · simpa using hw
      · exact absurd (by simpa using hmem) hw
    · cases hlf : lf (LogEntry.assistant (ft ++ stopMarker)) with
      | none =>
        refine ⟨fun _ => ?_, fun hmem => ?_⟩ <;>
          simp only [postLoop, h, producerOut, if_true, hlf] at *
        · simpa using hw
        · exact absurd (by simpa using hmem) hw
      | some m =>
        refine ⟨fun _ => ?_, fun hmem => ?_⟩ <;>
          simp only [postLoop, h, producerOut, if_true, hlf] at *
        · intro hmem
          simp at hmem
          rcases hmem with hmem | hmem
          · exact hw hmem
          · simp [doneEvent] at hmem
        · exfalso
          simp at hmem
          rcases hmem with hmem | hmem
          · exact hw hmem
          · simp [doneEvent] at hmem

theorem postLoop_stopped_wire (lf : LogEntry → Option String) (ft : String)
    (w : List WireEvent) (l : List LogEntry) (c : EndCause) :
    (postLoop lf true ft w l c).wire = w := by
  by_cases h : ft = ""
  · simp [postLoop, h]
  · cases hlf : lf (LogEntry.assistant (ft ++ stopMarker)) <;> simp [postLoop, h, hlf]

theorem postLoop_stopped_captured (lf : LogEntry → Option String) (ft : String)
    (w : List WireEvent) (l : List LogEntry) (c : EndCause) :
    (postLoop lf true ft w l c).captured
      = if ft = "" then none else some (ft ++ stopMarker) := by
  by_cases h : ft = ""
  · simp [postLoop, h]
  · cases hlf : lf (LogEntry.assistant (ft ++ stopMarker)) <;> simp [postLoop, h, hlf]

theorem postLoop_wire_head (lf : LogEntry → Option String) (ws : Bool) (ft : String)
    (x : WireEvent) (xs : List WireEvent) (l : List LogEntry) (c : EndCause) :
    (postLoop lf ws ft (x :: xs) l c).wire.head? = some x := by
  cases ws with
  | false =>
    by_cases h : ft = ""
    · simp [postLoop, h]
    · cases hlf : lf (LogEntry.assistant ft) <;> simp [postLoop, h, hlf]
  | true =>
    by_cases h : ft = ""
    · simp [postLoop, h]
    · cases hlf : lf (LogEntry.assistant (ft ++ stopMarker)) <;> simp [postLoop, h, hlf]

theorem postLoop_logs_head (lf : LogEntry → Option String) (ws : Bool) (ft : String)
    (w : List WireEvent) (le : LogEntry) (ls : List LogEntry) (c : EndCause) :
    (postLoop lf ws ft w (le :: ls) c).logs.head? = some le := by
  cases ws with
  | false =>
    by_cases h : ft = ""
    · simp [postLoop, h]
    · cases hlf : lf (LogEntry.assistant ft) <;> simp [postLoop, h, hlf]
  | true =>
    by_cases h : ft = ""
    · simp [postLoop, h]
    · cases hlf : lf (LogEntry.assistant (ft ++ stopMarker)) <;> simp [postLoop, h, hlf]

theorem runLoop_bad (loads : String → Option FormDef) (ag nm s : String)
    (evs2 : List AdkEvent) (hmk : pyStartsWith s formMarker = true)
    (hld : loads (pyDrop s 9) = none) :
    ∀ (evs1 : List AdkEvent) (i : Nat) (ts : List String),
      eventsNoFormB evs1 = true →
      runLoop loads logOk none none i ⟨none, ts⟩ (evs1 ++ mkRespEvent ag nm s :: evs2)
        = (match runLoop loads logOk none none i ⟨none, ts⟩ evs1 with
           | (w, l, st', t, _) => (w, l, st', t + 1, LoopExit.raised)) := by
  intro evs1
  induction evs1 with
  | nil =>
    intro i ts _
    rw [runLoop_nil]
    have hfr : frStep loads logOk ag ⟨none, ts⟩ (some ⟨nm, s⟩)
        = ([], [], ⟨none, ts⟩, true) := by
      rw [frStep]
      simp [hmk, hld]
    have hpc : processPart loads logOk ag ⟨none, ts⟩ ⟨none, some ⟨nm, s⟩, none⟩
        = ([], [], ⟨none, ts⟩, true) := by
      have := processPart_eq_raisedFr loads logOk ag ⟨none, ts⟩
        ⟨none, some ⟨nm, s⟩, none⟩ [] [] [] [] ⟨none, ts⟩ rfl hfr
      simpa using this
    have hpp : processParts loads logOk ag ⟨none, ts⟩ [(⟨none, some ⟨nm, s⟩, none⟩ : Part)]
        = ([], [], ⟨none, ts⟩, true) :=
      processParts_cons_raised loads logOk ag ⟨none, ts⟩ _ [] [] [] ⟨none, ts⟩ hpc
    simp only [List.nil_append]
    exact runLoop_cons_raised loads logOk none none i ⟨none, ts⟩
      (mkRespEvent ag nm s) evs2 (by simp) rfl [] [] ⟨none, ts⟩ hpp
  | cons e evs1 ih =>
    intro i ts h
    simp only [eventsNoFormB, List.all_cons, Bool.and_eq_true] at h
    rcases hpp : processParts loads logOk e.author ⟨none, ts⟩ e.parts with ⟨evs, lgs, st', r⟩
    have hcl := processParts_clean loads e.author e.parts ⟨none, ts⟩ h.1
    rw [hpp] at hcl
    have hr : r = false := hcl.1
    subst hr
    obtain ⟨fd', ts'⟩ := st'
    have hfd' : fd' = none := hcl.2
    subst hfd'
    rcases hrec : runLoop loads logOk none none (i + 1) ⟨none, ts'⟩ evs1 with
      ⟨w, l, st3, t, ex⟩
    have ihv : runLoop loads logOk none none (i + 1) ⟨none, ts'⟩
        (evs1 ++ mkRespEvent ag nm s :: evs2) = (w, l, st3, t + 1, LoopExit.raised) := by
      rw [ih (i + 1) ts' h.2, hrec]
    simp only [List.cons_append]
    rw [runLoop_cons_ok loads logOk none none i ⟨none, ts⟩ e
      (evs1 ++ mkRespEvent ag nm s :: evs2) (by simp) rfl evs w lgs l ⟨none, ts'⟩ st3
      (t + 1) LoopExit.raised hpp ihv]
    rw [runLoop_cons_ok loads logOk none none i ⟨none, ts⟩ e evs1 (by simp) rfl evs w lgs l
      ⟨none, ts'⟩ st3 t ex hpp hrec]

theorem postLoop_wasStopped (lf : LogEntry → Option String) (ws : Bool) (ft : String)
    (w : List WireEvent) (l : List LogEntry) (c : EndCause) :
    (postLoop lf ws ft w l c).wasStopped = ws := by
  cases ws with
  | false =>
    by_cases h : ft = ""
    · simp [postLoop, h]
    · cases hlf : lf (LogEntry.assistant ft) <;> simp [postLoop, h, hlf]
  | true =>
    by_cases h : ft = ""
    · simp [postLoop, h]
    · cases hlf : lf (LogEntry.assistant (ft ++ stopMarker)) <;> simp [postLoop, h, hlf]

theorem producerOut_eq_wire (r : RunOut) (h : r.postRaise = none) :
    producerOut r = r.wire := by
  simp [producerOut, h]

theorem postLoop_wire_cases (lf : LogEntry → Option String) (ws : Bool) (ft : String)
    (w : List WireEvent) (l : List LogEntry) (c : EndCause) :
    (postLoop lf ws ft w l c).wire = w
      ∨ (postLoop lf ws ft w l c).wire = w ++ [doneEvent] := by
  cases ws with
  | false =>
    by_cases h : ft = ""
    · right; simp [postLoop, h]
    · cases hlf : lf (LogEntry.assistant ft) with
      | none => right; simp [postLoop, h, hlf]
      | some m => left; simp [postLoop, h, hlf]
  | true =>
    by_cases h : ft = ""
    · left; simp [postLoop, h]
    · cases hlf : lf (LogEntry.assistant (ft ++ stopMarker)) <;> left <;>
        simp [postLoop, h, hlf]

theorem seal_append_single (a se : Option Bool) (cap : Option String)
    (evs : List SealEvent) :
    (sealSession true ⟨true, a, se, cap, evs⟩).2.1.appendedEvents
      = evs ++ [mkSealEvent (pySealText cap)] := rfl

/-- C1: evaluating `seal_session` on a session with an active, not-yet-done
producer task shows that the forced cancellation of the engine-driving task
(main.py line 645) happens strictly BEFORE the synthetic turn-complete
event is appended (line 673): in the action trace, `cancelTask` precedes
`appendSynthetic`.  This contradicts the claim (and the code's own comment
at lines 618-621) that the synthetic completion event is durably appended
before any forced cancellation. -/
theorem seal_cancels_before_append :
    (sealSession true ⟨true, some false, some false, some "Hello", []⟩).2.2
        = [SealAction.getSession, SealAction.setStopEvent, SealAction.cancelTask,
           SealAction.awaitTask, SealAction.popTask, SealAction.popStopEvent,
           SealAction.popCaptured, SealAction.appendSynthetic, SealAction.ret]
      ∧ (sealSession true ⟨true, some false, some false, some "Hello", []⟩).2.2.indexOf
            SealAction.cancelTask
        < (sealSession true ⟨true, some false, some false, some "Hello", []⟩).2.2.indexOf
            SealAction.appendSynthetic := by
  exact ⟨rfl, by decide⟩

/-- C2: when a second `/chat/stream` request supersedes an active turn and
the superseded task does not leave `_runner.run_async` within the 1-second
`asyncio.wait_for` (the `TimeoutError` branch at main.py lines 500-501 just
proceeds), the handler starts a new producer task while the old one is
still driving the engine: two tasks are concurrently inside
`_runner.run_async` for the same session, refuting the single-writer claim
(and the comment at main.py lines 73-76). -/
theorem supersession_two_drivers :
    (chatStreamStart false ⟨some ⟨false, true⟩, true⟩).2 = 2
      ∧ 1 < (chatStreamStart false ⟨some ⟨false, true⟩, true⟩).2 := by
  exact ⟨rfl, by decide⟩

/-- C3 counterexample: an engine fault raised while producing events (after
the text chunk "hi") is swallowed by the `except Exception` at main.py
line 308; the client receives NO `error` wire event, and the sequence ends
with `Text(done := true)` — refuting the claim that the fault surfaces as a
single `Error` event terminating the sequence with no `done:true` after
it. -/
theorem engine_fault_yields_done_no_error :
    producerOut (streamAgentRun noLoads logOk [mkTextEvent "hi"] true none none)
        = [WireEvent.text "hi" false, doneEvent]
      ∧ ∀ m, WireEvent.error m ∉ producerOut
          (streamAgentRun noLoads logOk [mkTextEvent "hi"] true none none) := by
  constructor
  · rfl
  · intro m hm
    have h : producerOut (streamAgentRun noLoads logOk [mkTextEvent "hi"] true none none)
        = [WireEvent.text "hi" false, doneEvent] := rfl
    rw [h] at hm
    simp [doneEvent] at hm

/-- C3 (amended): an engine fault raised while producing events is caught
and swallowed by the translator (main.py line 308): the run's observable
outcome — delivered wire events, log records, captured partial text — is
exactly the outcome of a faultless run over the same produced events.  In
particular no `Error` wire event is emitted for an engine fault and, when
the stop flag is unset, the turn still ends with `Text{done:true}`;
`Error` wire events arise only from exceptions that escape `_stream_agent`
itself (post-loop log-write failures). -/
theorem engine_fault_swallowed_observably_silent (loads : String → Option FormDef)
    (logFail : LogEntry → Option String) (events : List AdkEvent)
    (stopTime cancelAt : Option Nat) :
    observables (streamAgentRun loads logFail events true stopTime cancelAt)
      = observables (streamAgentRun loads logFail events false stopTime cancelAt) := by
  rcases h : runLoop loads logFail stopTime cancelAt 0 ⟨none, []⟩ events with
    ⟨w, l, st, t, ex⟩
  simp only [streamAgentRun, h]
  apply postLoop_cause_obs

/-- C5 counterexample: sealing never deletes the session
(`seal_session` only pops the task/stop/partial entries), so calling seal
twice in a row returns `preserved = true` BOTH times — the second call does
not return the claimed `preserved = false` no-active-state result. -/
theorem double_seal_second_preserved_true :
    (sealSession true ⟨true, some false, some false, some "Hello", []⟩).1.preserved = true
      ∧ (sealSession true
            (sealSession true ⟨true, some false, some false, some "Hello", []⟩).2.1
          ).1.preserved = true := by
  exact ⟨rfl, rfl⟩

/-- C5 (amended): a single `seal_session` call appends at most one
completion event and never throws; but sealing does not remove the session,
so calling seal twice in a row on an existing session (with the engine
accepting the appends) returns `preserved = true` from BOTH calls, the
first appending a completion event carrying the captured text (or the
placeholder) and the second appending another completion event carrying the
placeholder (the capture was consumed by the first call). -/
theorem double_seal_behaviour :
    (∀ (ok : Bool) (m : SessionMaps),
        ((sealSession ok m).2.1.appendedEvents).length ≤ m.appendedEvents.length + 1)
      ∧ ∀ (m : SessionMaps), m.sessionExists = true →
          (sealSession true m).1.preserved = true
            ∧ (sealSession true (sealSession true m).2.1).1.preserved = true
            ∧ (sealSession true (sealSession true m).2.1).2.1.appendedEvents
              = m.appendedEvents
                ++ [mkSealEvent (pySealText m.capturedText), mkSealEvent sealPlaceholder] := by
  constructor
  · intro ok m
    rcases m with ⟨b, a, se, cap, evs⟩
    cases b <;> cases ok <;> simp [sealSession]
  · intro m h
    rcases m with ⟨b, a, se, cap, evs⟩
    have hb : b = true := h
    subst hb
    refine ⟨rfl, rfl, ?_⟩
    show (evs ++ [mkSealEvent (pySealText cap)]) ++ [mkSealEvent sealPlaceholder]
        = evs ++ [mkSealEvent (pySealText cap), mkSealEvent sealPlaceholder]
    simp

/-- C5 witness: the amended double-seal behaviour evaluated on a concrete
session state. -/
theorem double_seal_behaviour_witness :
    (sealSession true ⟨true, some false, some true, some "Hi", []⟩).1.preserved = true
      ∧ (sealSession true
            (sealSession true ⟨true, some false, some true, some "Hi", []⟩).2.1
          ).1.preserved = true
      ∧ (sealSession true
            (sealSession true ⟨true, some false, some true, some "Hi", []⟩).2.1
          ).2.1.appendedEvents
        = [] ++ [mkSealEvent (pySealText (some "Hi")), mkSealEvent sealPlaceholder] :=
  double_seal_behaviour.2 ⟨true, some false, some true, some "Hi", []⟩ rfl

/-- C7 counterexample: on a detected client disconnection with the producer
task not yet done, the watcher's action trace CONTAINS `cancelTask`
(main.py lines 562-563 call `task.cancel()`), refuting the claim that it
returns without forcibly cancelling the underlying task. -/
theorem disconnect_branch_cancels_task :
    MonitorAction.cancelTask ∈ (monitoredStreamLoop [⟨true, false, none⟩]).2 := by
  decide

/-- C7 (amended): on detecting client disconnection the watcher sets the
stop signal AND forcibly cancels the producer task when it is not yet done
(skipping the cancel when it is already done), then returns immediately —
no further chunks are consumed or yielded regardless of what remains
queued. -/
theorem disconnect_sets_stop_and_cancels (g : Option (Option String))
    (rest : List PollRound) :
    monitoredStreamLoop (⟨true, false, g⟩ :: rest)
        = ([], [MonitorAction.setStop, MonitorAction.cancelTask, MonitorAction.ret])
      ∧ monitoredStreamLoop (⟨true, true, g⟩ :: rest)
        = ([], [MonitorAction.setStop, MonitorAction.ret]) := by
  constructor <;> simp [monitoredStreamLoop]

/-- C8 counterexample: a failure of the `_log_entry(sid, "user", message)`
write at main.py line 521 — which is not wrapped in any `try` — propagates
out of the `chat_stream` handler to the user-facing request, refuting the
claim that every log-write failure is swallowed. -/
theorem user_log_failure_propagates_concrete :
    chatStreamHandle noLoads failUserLog "hello" [] false none none
      = Except.error "disk full" := rfl

/-- C8 (amended): a failure to append the user message to the durable
per-session log is not swallowed at the logging call site: the exception
propagates out of the `chat_stream` handler to the user-facing request and
no turn is started.  (Failures of the tool/assistant log writes inside the
translator are caught only by the generic turn-level handlers, which end
the turn's event production or surface an `Error` wire event.) -/
theorem user_log_failure_propagates (loads : String → Option FormDef)
    (logFail : LogEntry → Option String) (message : String) (events : List AdkEvent)
    (fault : Bool) (stopTime cancelAt : Option Nat) (m : String)
    (h : logFail (LogEntry.user message) = some m) :
    chatStreamHandle loads logFail message events fault stopTime cancelAt
      = Except.error m := by
  simp [chatStreamHandle, h]

/-- C8 witness: the amended propagation statement evaluated on a concrete
failing user-message write. -/
theorem user_log_failure_propagates_witness :
    failUserLog (LogEntry.user "hi") = some "disk full"
      ∧ chatStreamHandle noLoads failUserLog "hi" [] false none none
        = Except.error "disk full" :=
  ⟨rfl, user_log_failure_propagates noLoads failUserLog "hi" [] false none none
    "disk full" rfl⟩

/-- C4: for every turn whose run ends with the stop flag observed set
(`wasStopped`), the synthetic completion event appended by a subsequent
successful `seal_session` carries exactly the concatenation of the text
chunks that were streamed on the wire followed by the interruption marker —
or the fixed placeholder `"（用户叫停了当前任务）"` when no text chunk was
emitted before the stop. -/
theorem seal_text_matches_captured_chunks (loads : String → Option FormDef)
    (logFail : LogEntry → Option String) (events : List AdkEvent) (fault : Bool)
    (stopTime cancelAt : Option Nat) (a se : Option Bool)
    (h : (streamAgentRun loads logFail events fault stopTime cancelAt).wasStopped = true) :
    (sealSession true ⟨true, a, se,
        (streamAgentRun loads logFail events fault stopTime cancelAt).captured, []⟩
      ).2.1.appendedEvents
      = [mkSealEvent
          (if chunksOf (streamAgentRun loads logFail events fault stopTime cancelAt).wire
              = ""
           then sealPlaceholder
           else chunksOf (streamAgentRun loads logFail events fault stopTime cancelAt).wire
             ++ stopMarker)] := by
  rcases hrl : runLoop loads logFail stopTime cancelAt 0 ⟨none, []⟩ events with
    ⟨w, l, st, t, ex⟩
  have htx := runLoop_texts loads logFail stopTime cancelAt events 0 ⟨none, []⟩
  rw [hrl] at htx
  have htx' : String.join st.texts = chunksOf w := by
    have h2 : st.texts = chunkList w := by simpa using htx
    rw [h2]; rfl
  simp only [streamAgentRun, hrl] at h ⊢
  rw [postLoop_wasStopped] at h
  rw [h]
  rw [seal_append_single, postLoop_stopped_wire, postLoop_stopped_captured, ← htx']
  by_cases hft : String.join st.texts = ""
  · simp [hft, pySealText]
  · rw [if_neg hft, if_neg hft]
    have hne := str_append_ne_empty (String.join st.texts) stopMarker hft
    simp [pySealText, hne]

/-- C4 witness: a turn streaming "Hello" and " world" and stopped before
its third chunk; the sealed completion event carries the captured chunks
plus the interruption marker. -/
theorem seal_text_matches_captured_chunks_witness :
    (streamAgentRun noLoads logOk
        [mkTextEvent "Hello", mkTextEvent " world", mkTextEvent "!!"] false (some 2)
        none).wasStopped = true
      ∧ (sealSession true ⟨true, none, none,
          (streamAgentRun noLoads logOk
            [mkTextEvent "Hello", mkTextEvent " world", mkTextEvent "!!"] false (some 2)
            none).captured, []⟩).2.1.appendedEvents
        = [mkSealEvent
            (if chunksOf (streamAgentRun noLoads logOk
                [mkTextEvent "Hello", mkTextEvent " world", mkTextEvent "!!"] false
                (some 2) none).wire = ""
             then sealPlaceholder
             else chunksOf (streamAgentRun noLoads logOk
                [mkTextEvent "Hello", mkTextEvent " world", mkTextEvent "!!"] false
                (some 2) none).wire ++ stopMarker)] :=
  ⟨by decide,
   seal_text_matches_captured_chunks noLoads logOk
     [mkTextEvent "Hello", mkTextEvent " world", mkTextEvent "!!"] false (some 2) none
     none none (by decide)⟩

/-- C6: `Text{done:true}` is enqueued only when the stop flag was not
observed set by the end of the run (so never for an interrupted turn), and
whenever it is delivered it is the last wire event of the turn. -/
theorem done_only_when_not_stopped_and_last (loads : String → Option FormDef)
    (logFail : LogEntry → Option String) (events : List AdkEvent) (fault : Bool)
    (stopTime cancelAt : Option Nat) :
    ((streamAgentRun loads logFail events fault stopTime cancelAt).wasStopped = true
        → doneEvent
          ∉ producerOut (streamAgentRun loads logFail events fault stopTime cancelAt))
      ∧ (doneEvent ∈ producerOut (streamAgentRun loads logFail events fault stopTime cancelAt)
          → (producerOut (streamAgentRun loads logFail events fault stopTime
              cancelAt)).getLast? = some doneEvent) := by
  rcases hrl : runLoop loads logFail stopTime cancelAt 0 ⟨none, []⟩ events with
    ⟨w, l, st, t, ex⟩
  have hshape := runLoop_wire_shape loads logFail stopTime cancelAt events 0 ⟨none, []⟩
  rw [hrl] at hshape
  have hnd := (loopWire_no_done_error hshape).1
  simp only [streamAgentRun, hrl]
  constructor
  · intro hws
    rw [postLoop_wasStopped] at hws
    exact (postLoop_done logFail _ _ w l _ hnd).1 hws
  · intro hmem
    exact (postLoop_done logFail _ _ w l _ hnd).2 hmem

/-- C6 witness: at a stopped run no `done:true` is delivered; at a normally
completed run `done:true` is the last delivered event. -/
theorem done_only_when_not_stopped_and_last_witness :
    doneEvent ∉ producerOut (streamAgentRun noLoads logOk [mkTextEvent "a"] false (some 0)
        none)
      ∧ (producerOut (streamAgentRun noLoads logOk [mkTextEvent "a"] false none
          none)).getLast? = some doneEvent :=
  ⟨(done_only_when_not_stopped_and_last noLoads logOk [mkTextEvent "a"] false (some 0)
      none).1 (by decide),
   (done_only_when_not_stopped_and_last noLoads logOk [mkTextEvent "a"] false none
      none).2 (by decide)⟩

/-- C9: a tool result (not form-marked) whose serialization is longer than
the 500-character display cap is delivered on the wire as its first 500
characters followed by the ellipsis marker, while the durable log record
written for it keeps the serialization up to the 2000-character audit
cap. -/
theorem tool_result_truncation (loads : String → Option FormDef)
    (logFail : LogEntry → Option String) (agent name s : String) (rest : List AdkEvent)
    (hm : pyStartsWith s formMarker = false)
    (hlog : logFail (LogEntry.toolResult name (pyTake (dumpsResultDict s) 2000)) = none)
    (hlen : 500 < pyLen (dumpsResultDict s)) :
    ((streamAgentRun loads logFail (mkRespEvent agent name s :: rest) false none
        none).wire.head?
        = some (WireEvent.toolResult name agent
            (pyTake (dumpsResultDict s) 500 ++ ellipsis)))
      ∧ ((streamAgentRun loads logFail (mkRespEvent agent name s :: rest) false none
          none).logs.head?
        = some (LogEntry.toolResult name (pyTake (dumpsResultDict s) 2000))) := by
  have hfin : finishResponse logFail agent name (dumpsResultDict s)
      = ([WireEvent.toolResult name agent (pyTake (dumpsResultDict s) 500 ++ ellipsis)],
         [LogEntry.toolResult name (pyTake (dumpsResultDict s) 2000)], false) := by
    rw [finishResponse, hlog]
    simp [hlen]
  have hfr : frStep loads logFail agent ⟨none, []⟩ (some ⟨name, s⟩)
      = ([WireEvent.toolResult name agent (pyTake (dumpsResultDict s) 500 ++ ellipsis)],
         [LogEntry.toolResult name (pyTake (dumpsResultDict s) 2000)], ⟨none, []⟩,
         false) := by
    rw [frStep]
    simp only [hm, Bool.false_eq_true, if_false, hfin]
  have hpc : processPart loads logFail agent ⟨none, []⟩ ⟨none, some ⟨name, s⟩, none⟩
      = ([WireEvent.toolResult name agent (pyTake (dumpsResultDict s) 500 ++ ellipsis)],
         [LogEntry.toolResult name (pyTake (dumpsResultDict s) 2000)], ⟨none, []⟩,
         false) := by
    have h2 := processPart_eq_ok loads logFail agent ⟨none, []⟩
      ⟨none, some ⟨name, s⟩, none⟩ []
      [WireEvent.toolResult name agent (pyTake (dumpsResultDict s) 500 ++ ellipsis)] []
      [] [LogEntry.toolResult name (pyTake (dumpsResultDict s) 2000)] ⟨none, []⟩
      ⟨none, []⟩ rfl hfr rfl
    simpa using h2
  have hpp : processParts loads logFail agent ⟨none, []⟩
      [(⟨none, some ⟨name, s⟩, none⟩ : Part)]
      = ([WireEvent.toolResult name agent (pyTake (dumpsResultDict s) 500 ++ ellipsis)],
         [LogEntry.toolResult name (pyTake (dumpsResultDict s) 2000)], ⟨none, []⟩,
         false) := by
    have h2 := processParts_cons_ok loads logFail agent ⟨none, []⟩
      ⟨none, some ⟨name, s⟩, none⟩ []
      [WireEvent.toolResult name agent (pyTake (dumpsResultDict s) 500 ++ ellipsis)] []
      [LogEntry.toolResult name (pyTake (dumpsResultDict s) 2000)] [] ⟨none, []⟩
      ⟨none, []⟩ false hpc (processParts_nil loads logFail agent ⟨none, []⟩)
    simpa using h2
  rcases hrec : runLoop loads logFail none none 1 ⟨none, []⟩ rest with ⟨w2, l2, st2, t, ex⟩
  have hrl : runLoop loads logFail none none 0 ⟨none, []⟩ (mkRespEvent agent name s :: rest)
      = (WireEvent.toolResult name agent (pyTake (dumpsResultDict s) 500 ++ ellipsis)
          :: w2,
         LogEntry.toolResult name (pyTake (dumpsResultDict s) 2000) :: l2, st2, t, ex) := by
    have h2 := runLoop_cons_ok loads logFail none none 0 ⟨none, []⟩
      (mkRespEvent agent name s) rest (by simp) rfl
      [WireEvent.toolResult name agent (pyTake (dumpsResultDict s) 500 ++ ellipsis)] w2
      [LogEntry.toolResult name (pyTake (dumpsResultDict s) 2000)] l2 ⟨none, []⟩ st2 t ex
      hpp hrec
    simpa using h2
  constructor
  · simp only [streamAgentRun, hrl]
    apply postLoop_wire_head
  · simp only [streamAgentRun, hrl]
    apply postLoop_logs_head

set_option maxRecDepth 100000 in
/-- C9 witness: a 600-character tool result; its serialization (614
characters) is over the display cap, the wire event is truncated with the
ellipsis and the log record keeps it whole (it is under the audit cap). -/
theorem tool_result_truncation_witness :
    pyStartsWith (String.mk (List.replicate 600 'a')) formMarker = false
      ∧ 500 < pyLen (dumpsResultDict (String.mk (List.replicate 600 'a')))
      ∧ ((streamAgentRun noLoads logOk
            [mkRespEvent "ag" "t" (String.mk (List.replicate 600 'a'))] false none
            none).wire.head?
          = some (WireEvent.toolResult "t" "ag"
              (pyTake (dumpsResultDict (String.mk (List.replicate 600 'a'))) 500
                ++ ellipsis)))
      ∧ ((streamAgentRun noLoads logOk
            [mkRespEvent "ag" "t" (String.mk (List.replicate 600 'a'))] false none
            none).logs.head?
          = some (LogEntry.toolResult "t"
              (pyTake (dumpsResultDict (String.mk (List.replicate 600 'a'))) 2000))) :=
  ⟨by decide, by decide,
   (tool_result_truncation noLoads logOk "ag" "t" (String.mk (List.replicate 600 'a'))
      [] (by decide) rfl (by decide)).1,
   (tool_result_truncation noLoads logOk "ag" "t" (String.mk (List.replicate 600 'a'))
      [] (by decide) rfl (by decide)).2⟩

/-- C10 counterexample: when an earlier tool result of the same turn
successfully parsed as a form, the Python local `form_def` is still bound;
a later `__FORM__:`-marked result with an invalid payload then does NOT
raise `NameError` — the stale form id is reused, a ToolResult wire event IS
emitted for that result, and the turn's remaining events are NOT dropped —
refuting the claim's universal "for every such result". -/
theorem bad_form_after_good_form_emits_toolresult :
    WireEvent.toolResult "t2" "ag" (dumpsResultDict (rewrittenResult "fid"))
        ∈ (streamAgentRun formLoadsG logOk
            [mkRespEvent "ag" "t1" "__FORM__:G", mkRespEvent "ag" "t2" "__FORM__:bad",
             mkTextEvent "after"] false none none).wire
      ∧ WireEvent.text "after" false
        ∈ (streamAgentRun formLoadsG logOk
            [mkRespEvent "ag" "t1" "__FORM__:G", mkRespEvent "ag" "t2" "__FORM__:bad",
             mkTextEvent "after"] false none none).wire := by
  constructor <;> decide

/-- C10 (amended): for a `__FORM__:`-marked tool result whose payload does
not parse, reached while `form_def` is still unassigned (no earlier result
of the turn carried the form marker), the rewrite line raises `NameError`;
it is swallowed by the turn-level handler, so the turn's observable outcome
equals that of the turn truncated just before the offending event — the
offending result produces no ToolResult event, everything after it is
dropped, and no Error wire event is delivered (a final `Text{done:true}`
still follows, as the stop flag is unset). -/
theorem bad_form_unbound_drops_rest (loads : String → Option FormDef)
    (evs1 evs2 : List AdkEvent) (agent name s : String)
    (hclean : eventsNoFormB evs1 = true)
    (hmk : pyStartsWith s formMarker = true)
    (hld : loads (pyDrop s 9) = none) :
    observables (streamAgentRun loads logOk (evs1 ++ mkRespEvent agent name s :: evs2)
        false none none)
        = observables (streamAgentRun loads logOk evs1 false none none)
      ∧ ∀ m, WireEvent.error m ∉ producerOut (streamAgentRun loads logOk
          (evs1 ++ mkRespEvent agent name s :: evs2) false none none) := by
  have hsplit := runLoop_bad loads agent name s evs2 hmk hld evs1 0 [] hclean
  rcases hrl : runLoop loads logOk none none 0 ⟨none, []⟩ evs1 with ⟨w, l, st, t, ex⟩
  rw [hrl] at hsplit
  have hsplit' : runLoop loads logOk none none 0 ⟨none, []⟩
      (evs1 ++ mkRespEvent agent name s :: evs2) = (w, l, st, t + 1, LoopExit.raised) :=
    hsplit
  have hshape := runLoop_wire_shape loads logOk none none evs1 0 ⟨none, []⟩
  rw [hrl] at hshape
  constructor
  · simp only [streamAgentRun, hsplit', hrl]
    simp only [flagAt]
    apply postLoop_cause_obs
  · intro m hm
    simp only [streamAgentRun, hsplit'] at hm
    rw [producerOut_eq_wire _ (postLoop_postRaise_logOk _ _ w l _)] at hm
    rcases postLoop_wire_cases logOk (flagAt none (t + 1)) (String.join st.texts) w l
        EndCause.raisedInLoop with hpw | hpw
    · rw [hpw] at hm
      exact (loopWire_no_done_error hshape).2 m hm
    · rw [hpw] at hm
      rcases List.mem_append.mp hm with h | h
      · exact (loopWire_no_done_error hshape).2 m h
      · simp [doneEvent] at h

/-- C10 witness: the amended statement evaluated on a turn with one clean
text event, then a bad form result, then a further text event that gets
dropped. -/
theorem bad_form_unbound_drops_rest_witness :
    eventsNoFormB [mkTextEvent "hi"] = true
      ∧ pyStartsWith "__FORM__:oops" formMarker = true
      ∧ noLoads (pyDrop "__FORM__:oops" 9) = none
      ∧ observables (streamAgentRun noLoads logOk
            ([mkTextEvent "hi"] ++ mkRespEvent "ag" "t" "__FORM__:oops"
              :: [mkTextEvent "bye"]) false none none)
        = observables (streamAgentRun noLoads logOk [mkTextEvent "hi"] false none none) :=
  ⟨by decide, by decide, rfl,
   (bad_form_unbound_drops_rest noLoads [mkTextEvent "hi"] [mkTextEvent "bye"] "ag" "t"
      "__FORM__:oops" (by decide) (by decide) rfl).1⟩

end Backend
